import Mathlib

/-!
Verification of the syslog viewer's live-tail core (`app.py`).

The development shallowly embeds the parts of `app.py` that the streaming
claims are about:

* `send_last_lines` (backlog snapshot, backward block scan over the file);
* `tail_file_background` (the polling tail worker loop and its cleanup);
* the socket handlers `on_join`, `on_leave`, `on_disconnect`;
* the module-level registry `tail_threads` guarded by `thread_lock`.

File contents are modelled as `List Char`; Python's `str.splitlines` is
modelled for the `'\n'` delimiter.  The concurrent system is modelled as a
deterministic executor over an explicit interleaving schedule: one `Action`
is one handler invocation, one worker loop iteration, or one append to a
file on disk.  Python dictionaries that are shared by reference (the
per-room entries of `tail_threads`) are modelled with an explicit heap of
entries addressed by id, so that the source's aliasing behaviour (mutating
an entry that has already been replaced in the map) is preserved.
-/

/-- Python `str.splitlines` restricted to the `'\n'` delimiter: splits into
lines without their terminators; a trailing terminator produces no extra
empty line; the empty string yields no lines. -/
def splitlines : List Char → List (List Char)
  | [] => []
  | c :: s =>
    if c = '\n' then [] :: splitlines s
    else
      match splitlines s with
      | [] => [[c]]
      | l :: ls => (c :: l) :: ls

/-- Python slicing `xs[-n:]` for a natural `n`: for `n = 0` this is `xs[0:]`,
the whole list (since `-0 = 0`), otherwise the last `n` elements. -/
def pySliceLastN {α : Type} (xs : List α) (n : Nat) : List α :=
  if n = 0 then xs else xs.drop (xs.length - n)

/-- The backward block scan of `send_last_lines`: starting with
`size = file.length` and `data = ""`, while `data` holds at most `n` lines
and `size > 0`, move `size` back by one 4096-byte block (clamped at 0) and
re-read the suffix of the file from offset `size`.  The `fuel` argument is
an upper bound on the number of iterations (`size` itself suffices, as each
iteration strictly decreases `size`); on exhaustion it returns the current
suffix, which coincides with the loop's result whenever `fuel ≥ size`. -/
def scanLoopF (file : List Char) (n : Nat) : Nat → Nat → List Char
  | size, 0 => file.drop size
  | size, fuel + 1 =>
    if (splitlines (file.drop size)).length ≤ n ∧ 0 < size then
      scanLoopF file n (size - 4096) fuel
    else
      file.drop size

/-- The suffix of the file that `send_last_lines` has read when its scan
loop exits. -/
def snapshotScan (file : List Char) (n : Nat) : List Char :=
  scanLoopF file n file.length file.length

/-- The list of lines `send_last_lines(filename, room, n)` emits for a
readable file with the given contents: `data.splitlines()[-n:]` where
`data` is the suffix read by the backward scan. -/
def sendLastLinesResult (file : List Char) (n : Nat) : List (List Char) :=
  pySliceLastN (splitlines (snapshotScan file n)) n

/-- The last `n` elements of a list (all of them when it has fewer). -/
def lastN {α : Type} (xs : List α) (n : Nat) : List α :=
  xs.drop (xs.length - n)

theorem splitlines_nil : splitlines [] = [] := rfl

theorem splitlines_cons_newline (s : List Char) :
    splitlines ('\n' :: s) = [] :: splitlines s := by
  simp [splitlines]

theorem splitlines_length_le_append (a b : List Char) :
    (splitlines b).length ≤ (splitlines (a ++ b)).length := by
  induction a with
  | nil => simp
  | cons c a ih =>
    show (splitlines b).length ≤ (splitlines (c :: (a ++ b))).length
    by_cases hc : c = '\n'
    · subst hc
      rw [splitlines_cons_newline]
      exact le_trans ih (Nat.le_succ _)
    · simp only [splitlines, if_neg hc]
      rcases hs : splitlines (a ++ b) with _ | ⟨l, ls⟩
      · rw [hs] at ih
        simp only [List.length_nil, Nat.le_zero] at ih
        simp [ih]
      · rw [hs] at ih
        simpa using ih

theorem lastN_cons {α : Type} (x : α) (xs : List α) (n : Nat) (h : n ≤ xs.length) :
    lastN (x :: xs) n = lastN xs n := by
  simp only [lastN, List.length_cons]
  rw [Nat.succ_sub h, List.drop_succ_cons]

theorem lastN_splitlines_cons (c : Char) (s : List Char) (n : Nat)
    (h : n < (splitlines s).length) :
    lastN (splitlines (c :: s)) n = lastN (splitlines s) n := by
  by_cases hc : c = '\n'
  · subst hc
    rw [splitlines_cons_newline]
    exact lastN_cons _ _ _ (le_of_lt h)
  · simp only [splitlines, if_neg hc]
    rcases hs : splitlines s with _ | ⟨l, ls⟩
    · rw [hs] at h; simp at h
    · rw [hs] at h
      simp only [List.length_cons] at h
      have hn : n ≤ ls.length := Nat.lt_succ_iff.mp h
      rw [lastN_cons _ _ _ hn, lastN_cons _ _ _ hn]

theorem lastN_splitlines_append (a b : List Char) (n : Nat)
    (h : n < (splitlines b).length) :
    lastN (splitlines (a ++ b)) n = lastN (splitlines b) n := by
  induction a with
  | nil => rfl
  | cons c a ih =>
    have hlt : n < (splitlines (a ++ b)).length :=
      lt_of_lt_of_le h (splitlines_length_le_append a b)
    show lastN (splitlines (c :: (a ++ b))) n = lastN (splitlines b) n
    rw [lastN_splitlines_cons c (a ++ b) n hlt, ih]

theorem scanLoopF_spec (file : List Char) (n : Nat) :
    ∀ fuel size, size ≤ fuel →
      scanLoopF file n size fuel = file ∨
      (∃ s, scanLoopF file n size fuel = file.drop s ∧
        n < (splitlines (file.drop s)).length) := by
  intro fuel
  induction fuel with
  | zero =>
    intro size hsz
    left
    have : size = 0 := Nat.le_zero.mp hsz
    subst this
    simp [scanLoopF]
  | succ f ih =>
    intro size hsz
    by_cases hcond : (splitlines (file.drop size)).length ≤ n ∧ 0 < size
    · rw [scanLoopF, if_pos hcond]
      exact ih (size - 4096) (by omega)
    · rw [scanLoopF, if_neg hcond]
      rcases Nat.eq_zero_or_pos size with hz | hpos
      · subst hz; left; simp
      · right
        refine ⟨size, rfl, ?_⟩
        by_contra hnot
        exact hcond ⟨Nat.le_of_not_lt hnot, hpos⟩

theorem snapshotScan_spec (file : List Char) (n : Nat) :
    snapshotScan file n = file ∨
    (∃ s, snapshotScan file n = file.drop s ∧
      n < (splitlines (file.drop s)).length) :=
  scanLoopF_spec file n file.length file.length le_rfl

/-- C5: for every file and every `n ≥ 1`, the snapshot reader returns
exactly the last `n` lines of the file, in original order (all of the
file's lines when it has at most `n`); moreover when the file is larger
than one 4096-byte block and the final block already holds more than `n`
lines, the backward scan stops after reading only that final block of the
file rather than the whole file. -/
theorem C5_snapshot_last_lines (file : List Char) (n : Nat) (h : 1 ≤ n) :
    sendLastLinesResult file n
      = (splitlines file).drop ((splitlines file).length - n) ∧
    (4096 < file.length →
      n < (splitlines (file.drop (file.length - 4096))).length →
      snapshotScan file n = file.drop (file.length - 4096)) := by
  constructor
  · show sendLastLinesResult file n = lastN (splitlines file) n
    have hne : n ≠ 0 := by omega
    rcases snapshotScan_spec file n with hfull | ⟨s, he, hlt⟩
    · rw [sendLastLinesResult, hfull, pySliceLastN, if_neg hne]
      rfl
    · rw [sendLastLinesResult, he, pySliceLastN, if_neg hne]
      show lastN (splitlines (file.drop s)) n = lastN (splitlines file) n
      conv_rhs => rw [← List.take_append_drop s file]
      exact (lastN_splitlines_append (file.take s) (file.drop s) n hlt).symm
  · intro hlen hlines
    obtain ⟨f, hf⟩ : ∃ f, file.length = f + 1 := ⟨file.length - 1, by omega⟩
    rw [snapshotScan]
    conv_lhs => rw [hf]
    rw [scanLoopF]
    have h1 : (splitlines (file.drop (f + 1))).length ≤ n ∧ 0 < f + 1 := by
      refine ⟨?_, by omega⟩
      rw [← hf, List.drop_length, splitlines_nil]
      exact Nat.zero_le n
    rw [if_pos h1]
    have hsz : f + 1 - 4096 = file.length - 4096 := by omega
    rw [hsz]
    obtain ⟨f2, hf2⟩ : ∃ f2, f = f2 + 1 := ⟨f - 1, by omega⟩
    rw [hf2, scanLoopF, if_neg]
    rintro ⟨hc, -⟩
    omega

/-- C5 witness: the theorem applied to the six-character file `"a\nb\nc\n"`
with `n = 2`, whose snapshot is exactly its last two lines. -/
theorem C5_snapshot_last_lines_witness :
    1 ≤ 2 ∧
    (sendLastLinesResult ['a', '\n', 'b', '\n', 'c', '\n'] 2
      = (splitlines ['a', '\n', 'b', '\n', 'c', '\n']).drop
          ((splitlines ['a', '\n', 'b', '\n', 'c', '\n']).length - 2)) ∧
    sendLastLinesResult ['a', '\n', 'b', '\n', 'c', '\n'] 2 = [['b'], ['c']] :=
  ⟨by decide,
   (C5_snapshot_last_lines ['a', '\n', 'b', '\n', 'c', '\n'] 2 (by decide)).1,
   by decide⟩

/-- C7: calling the snapshot reader with `n = 0` does not produce an empty
result: `data.splitlines()[-0:]` is the whole list (`-0 = 0` in Python), so
every line of the suffix that the scan read is emitted.  On the concrete
file `"a\nb\n"` the reader emits both lines instead of none. -/
theorem C7_snapshot_n0_not_empty :
    sendLastLinesResult ['a', '\n', 'b', '\n'] 0 = [['a'], ['b']] ∧
    sendLastLinesResult ['a', '\n', 'b', '\n'] 0 ≠ [] := by
  constructor
  · decide
  · decide

/-!
## The concurrent system

Association-list operations standing in for Python dictionaries.  Keys are
unique as long as the list is only built through `aupdate`/`aremove`, which
is all the embedding does.
-/

/-- Dictionary lookup `d.get(k)`. -/
def alookup {α β : Type} [DecidableEq α] (k : α) : List (α × β) → Option β
  | [] => none
  | (k', v) :: rest => if k = k' then some v else alookup k rest

/-- Dictionary assignment `d[k] = v`: replaces the binding of `k` if
present, otherwise appends a new one. -/
def aupdate {α β : Type} [DecidableEq α] (k : α) (v : β) : List (α × β) → List (α × β)
  | [] => [(k, v)]
  | (k', v') :: rest => if k = k' then (k, v) :: rest else (k', v') :: aupdate k v rest

/-- Dictionary removal `d.pop(k, None)`. -/
def aremove {α β : Type} [DecidableEq α] (k : α) : List (α × β) → List (α × β)
  | [] => []
  | (k', v') :: rest => if k = k' then aremove k rest else (k', v') :: aremove k rest

theorem alookup_aupdate_self {α β : Type} [DecidableEq α] (k : α) (v : β)
    (l : List (α × β)) : alookup k (aupdate k v l) = some v := by
  induction l with
  | nil => simp [alookup, aupdate]
  | cons p rest ih =>
    by_cases hk : k = p.1
    · simp [aupdate, hk, alookup]
    · simp [aupdate, hk, alookup, ih]

theorem alookup_aupdate_ne {α β : Type} [DecidableEq α] (k k' : α) (v : β)
    (l : List (α × β)) (h : k' ≠ k) :
    alookup k' (aupdate k v l) = alookup k' l := by
  induction l with
  | nil => simp [alookup, aupdate, h]
  | cons p rest ih =>
    by_cases hk : k = p.1
    · subst hk
      simp [aupdate, alookup, h, ih]
    · by_cases hk' : k' = p.1
      · simp [aupdate, hk, alookup, hk']
      · simp [aupdate, hk, alookup, hk', ih]

theorem alookup_aremove_self {α β : Type} [DecidableEq α] (k : α)
    (l : List (α × β)) : alookup k (aremove k l) = none := by
  induction l with
  | nil => simp [alookup, aremove]
  | cons p rest ih =>
    obtain ⟨k', v'⟩ := p
    by_cases hk : k = k'
    · subst hk
      simp [aremove, ih]
    · simp [aremove, hk, alookup, ih]

theorem alookup_aremove_ne {α β : Type} [DecidableEq α] (k k' : α)
    (l : List (α × β)) (h : k' ≠ k) :
    alookup k' (aremove k l) = alookup k' l := by
  induction l with
  | nil => simp [aremove]
  | cons p rest ih =>
    by_cases hk : k = p.1
    · subst hk
      simp [aremove, alookup, h, ih]
    · by_cases hk' : k' = p.1
      · simp [aremove, hk, alookup, hk']
      · simp [aremove, hk, alookup, hk', ih]

/-- The module constant `LOG_DIR = "/var/log"`. -/
def LOG_DIR : String := "/var/log"

/-- Python `os.path.join(a, b)` for two components: an absolute second
component discards the first; otherwise the components are joined with a
separator (none added when `a` is empty or already ends in one). -/
def pyPathJoin (a b : String) : String :=
  match b.data with
  | '/' :: _ => b
  | _ =>
    if a.data = [] then b
    else if a.data.getLast? = some '/' then a ++ b
    else a ++ "/" ++ b

/-- Python `fh.readline()` from a given cursor: the characters from the
cursor up to and including the next `'\n'`, or up to end-of-file when no
newline follows (a partial line is returned, not buffered). -/
def takeline : List Char → List Char
  | [] => []
  | c :: s => if c = '\n' then ['\n'] else c :: takeline s

/-- One `readline` call on a file with the given contents and cursor. -/
def pyReadline (c : List Char) (pos : Nat) : List Char :=
  takeline (c.drop pos)

/-- One per-room entry of `tail_threads`:
`{"thread": Thread, "stop": bool, "file": str}`.  The thread object is
modelled by the worker id it refers to. -/
structure Entry where
  stop : Bool
  file : String
  worker : Nat
deriving DecidableEq, Repr

/-- The phase of a `tail_file_background` thread: about to run `open`
(`WPhase.start`); at the top of its `while True` loop (`WPhase.loop`);
past the loop or the `except` clause, about to run the `finally` cleanup
(`WPhase.cleanup`); returned (`WPhase.finished`). -/
inductive WPhase
  | start
  | loop
  | cleanup
  | finished
deriving DecidableEq, Repr

/-- The private state of one `tail_file_background` thread: the room and
filename it was given, its read cursor `pos`, the cursor value right after
its initial seek-to-end (`pos0`), and its phase. -/
structure Wk where
  room : String
  file : String
  pos : Nat
  pos0 : Nat
  phase : WPhase
deriving DecidableEq, Repr

/-- The kinds of Socket.IO events the core emits. -/
inductive EvKind
  | logLine
  | logError
  | joinedAck
deriving DecidableEq, Repr

/-- One emitted event, recording the room it targeted, the connections
that were members of that room at emission time (the recipients), the
payload, and which worker (if any) emitted it. -/
structure Event where
  kind : EvKind
  room : String
  recipients : List Nat
  file : String
  line : List Char
  emitter : Option Nat
deriving DecidableEq, Repr

/-- The whole system state: the heap of `tail_threads` entry dictionaries
(addressed by id, since Python shares them by reference), the
`tail_threads` map from room to current entry id, the worker threads by
id, the readable files on disk by full path, the room memberships, and the
trace of emitted events (oldest first). -/
structure Sys where
  heap : List (Nat × Entry)
  nextEntry : Nat
  tailThreads : List (String × Nat)
  workers : List (Nat × Wk)
  nextWorker : Nat
  files : List (String × List Char)
  rooms : List (String × List Nat)
  trace : List Event
deriving DecidableEq, Repr

/-- The members of a room (empty for an unknown room). -/
def roomMembers (s : Sys) (r : String) : List Nat :=
  (alookup r s.rooms).getD []

/-- The current contents of the file at a path (empty when unreadable;
only used on paths whose readability has been checked). -/
def contentAt (s : Sys) (path : String) : List Char :=
  (alookup path s.files).getD []

/-- The path a worker reads: `os.path.join(LOG_DIR, filename)`. -/
def wpath (w : Wk) : String :=
  pyPathJoin LOG_DIR w.file

/-- The loop-top check of `tail_file_background`:
`info = tail_threads.get(room); if not info or info.get("stop"): break`.
The worker continues only when the room currently has an entry and that
entry's `stop` flag is unset — whichever entry the room maps to now, not
necessarily the entry created for this worker. -/
def entryLive (s : Sys) (room : String) : Bool :=
  match alookup room s.tailThreads with
  | some eid =>
    match alookup eid s.heap with
    | some ent => !ent.stop
    | none => false
  | none => false

/-- The room membership right after `join_room(room)` for a join by
`conn`: the previous members, with `conn` appended if not yet present. -/
def joinMembers (s : Sys) (conn : Nat) (room : String) : List Nat :=
  if conn ∈ roomMembers s room then roomMembers s room
  else roomMembers s room ++ [conn]

/-- The events `send_last_lines(filename, room, n=200)` emits during a
join: one `log_line` per snapshot line (each with a `"\n"` appended) to
the whole room when the file opens, a single `log_error` to the whole
room when it does not. -/
def snapshotEvents (s : Sys) (conn : Nat) (filename : String) : List Event :=
  match alookup (pyPathJoin LOG_DIR filename) s.files with
  | some c =>
    (sendLastLinesResult c 200).map fun l =>
      { kind := .logLine, room := filename, recipients := joinMembers s conn filename,
        file := filename, line := l ++ ['\n'], emitter := none }
  | none =>
    [{ kind := .logError, room := filename, recipients := joinMembers s conn filename,
       file := filename, line := [], emitter := none }]

/-- All events `on_join` emits, in order: the `joined` ack to the caller
only, then the snapshot events to the room. -/
def joinEvents (s : Sys) (conn : Nat) (filename : String) : List Event :=
  { kind := .joinedAck, room := filename, recipients := [conn],
    file := filename, line := [], emitter := none }
  :: snapshotEvents s conn filename

/-- The heap after `old = tail_threads.get(room); if old: old["stop"] =
True`: the dictionary currently bound to the room — if any — has its stop
flag set.  A worker holding a reference to a *previously replaced*
dictionary is unaffected, since only the current binding is reachable
here. -/
def stopOldEntry (s : Sys) (room : String) : List (Nat × Entry) :=
  match alookup room s.tailThreads with
  | some eid =>
    match alookup eid s.heap with
    | some ent => aupdate eid { ent with stop := true } s.heap
    | none => s.heap
  | none => s.heap

/-- The `on_join` handler: ignore a falsy filename; otherwise
`join_room`, emit the `joined` ack to the caller, run `send_last_lines`
(which emits the snapshot lines — or one error event — to the whole
room), and then, under `thread_lock`, mark any existing entry's dictionary
stopped, install a fresh entry in `tail_threads`, and start a fresh
worker thread. -/
def doJoin (s : Sys) (conn : Nat) (filename : String) : Sys :=
  if filename = "" then s
  else
    { s with
      rooms := aupdate filename (joinMembers s conn filename) s.rooms
      trace := s.trace ++ joinEvents s conn filename
      heap := aupdate s.nextEntry
        { stop := false, file := filename, worker := s.nextWorker }
        (stopOldEntry s filename)
      tailThreads := aupdate filename s.nextEntry s.tailThreads
      workers := aupdate s.nextWorker
        { room := filename, file := filename, pos := 0, pos0 := 0, phase := .start }
        s.workers
      nextEntry := s.nextEntry + 1
      nextWorker := s.nextWorker + 1 }

/-- The `on_leave` handler: ignore a falsy filename; otherwise
`leave_room`, and under `thread_lock` set `stop` on the room's current
entry, if any.  No subscriber count is consulted. -/
def doLeave (s : Sys) (conn : Nat) (filename : String) : Sys :=
  if filename = "" then s
  else
    let room := filename
    let ms := (roomMembers s room).filter (fun m => m ≠ conn)
    let s1 := { s with rooms := aupdate room ms s.rooms }
    match alookup room s1.tailThreads with
    | some eid =>
      match alookup eid s1.heap with
      | some ent => { s1 with heap := aupdate eid { ent with stop := true } s1.heap }
      | none => s1
    | none => s1

/-- The `on_disconnect` handler: its body is `pass`.  The transport layer
itself drops the connection from every room (Socket.IO's own cleanup);
nothing else happens — in particular no registry entry is touched. -/
def doDisconnect (s : Sys) (conn : Nat) : Sys :=
  { s with rooms := s.rooms.map fun p => (p.1, p.2.filter (fun m => m ≠ conn)) }

/-- An append of bytes to an existing file on disk (appends to unknown
paths are ignored: the file table's domain never changes). -/
def doAppend (s : Sys) (path : String) (content : List Char) : Sys :=
  match alookup path s.files with
  | some c => { s with files := aupdate path (c ++ content) s.files }
  | none => s

/-- One step of the worker thread `wid`, following
`tail_file_background`:

* `start`: run `open(path)`; on failure emit `log_error` to the room and
  fall to the `finally` cleanup; on success seek to end-of-file and enter
  the loop.
* `loop` (one iteration): under `thread_lock` fetch
  `tail_threads.get(room)` — note: whatever entry is *currently* stored
  for the room, not the one this worker was started with — and break to
  cleanup when it is absent or stopped; otherwise `readline()`: on empty
  result sleep and retry, on data emit it as one `log_line` event and
  advance the cursor.
* `cleanup` (the `finally` block): `tail_threads.pop(room, None)` —
  removes the room's current binding unconditionally — then return. -/
def doWorkerStep (s : Sys) (wid : Nat) : Sys :=
  match alookup wid s.workers with
  | none => s
  | some w =>
    match w.phase with
    | .start =>
      match alookup (wpath w) s.files with
      | none =>
        let ev : Event :=
          { kind := .logError, room := w.room, recipients := roomMembers s w.room,
            file := w.file, line := [], emitter := some wid }
        { s with
          trace := s.trace ++ [ev]
          workers := aupdate wid { w with phase := .cleanup } s.workers }
      | some c =>
        { s with
          workers := aupdate wid
            { w with pos := c.length, pos0 := c.length, phase := .loop } s.workers }
    | .loop =>
      if entryLive s w.room then
        let c := contentAt s (wpath w)
        let line := pyReadline c w.pos
        if line = [] then s
        else
          let ev : Event :=
            { kind := .logLine, room := w.room, recipients := roomMembers s w.room,
              file := w.file, line := line, emitter := some wid }
          { s with
            trace := s.trace ++ [ev]
            workers := aupdate wid { w with pos := w.pos + line.length } s.workers }
      else
        { s with workers := aupdate wid { w with phase := .cleanup } s.workers }
    | .cleanup =>
      { s with
        tailThreads := aremove w.room s.tailThreads
        workers := aupdate wid { w with phase := .finished } s.workers }
    | .finished => s

/-- One schedulable step of the whole system. -/
inductive Act
  | join (conn : Nat) (file : String)
  | leave (conn : Nat) (file : String)
  | disconnect (conn : Nat)
  | step (wid : Nat)
  | append (path : String) (content : List Char)
deriving DecidableEq, Repr

/-- The deterministic executor for one action. -/
def doAction (s : Sys) : Act → Sys
  | .join c f => doJoin s c f
  | .leave c f => doLeave s c f
  | .disconnect c => doDisconnect s c
  | .step wid => doWorkerStep s wid
  | .append p c => doAppend s p c

/-- Run a schedule of actions from a state. -/
def run (s : Sys) (acts : List Act) : Sys :=
  acts.foldl doAction s

/-- The state at process start, with a given table of readable files. -/
def initSys (files : List (String × List Char)) : Sys :=
  { heap := [], nextEntry := 0, tailThreads := [], workers := [],
    nextWorker := 0, files := files, rooms := [], trace := [] }


/-!
## Claims about single handler steps: C2, C6, C8, C9, C10
-/

/-- C10: whenever a tail worker runs its `finally` cleanup, it removes the
registry binding currently stored for its room, unconditionally — even a
binding installed meanwhile for a newer replacement worker — without
emitting anything; and a worker that reaches its loop-top check while its
room has no binding moves to cleanup on that step, also without emitting.
Together: a terminating old worker deletes a live replacement's entry, and
the replacement then exits at its next loop-top check. -/
theorem C10_cleanup_unconditional (s : Sys) (wid : Nat) (w : Wk)
    (hw : alookup wid s.workers = some w) :
    (w.phase = WPhase.cleanup →
      alookup w.room (doWorkerStep s wid).tailThreads = none ∧
      (doWorkerStep s wid).trace = s.trace) ∧
    (w.phase = WPhase.loop →
      alookup w.room s.tailThreads = none →
      alookup wid (doWorkerStep s wid).workers
        = some { w with phase := WPhase.cleanup } ∧
      (doWorkerStep s wid).trace = s.trace) := by
  constructor
  · intro hph
    simp only [doWorkerStep, hw, hph]
    exact ⟨alookup_aremove_self _ _, trivial⟩
  · intro hph hnone
    have hl : entryLive s w.room = false := by
      simp [entryLive, hnone]
    simp only [doWorkerStep, hw, hph, hl, Bool.false_eq_true, if_false]
    exact ⟨alookup_aupdate_self _ _ _, trivial⟩

/-- A state reaching a worker in its cleanup phase: one join, the worker
enters its loop, a leave stops it, and its next loop iteration observes
the stop flag. -/
def c10State : Sys :=
  run (initSys [("/var/log/x.log", [])])
    [Act.join 1 "x.log", Act.step 0, Act.leave 1 "x.log", Act.step 0]

/-- The worker state in `c10State`. -/
def c10Wk : Wk :=
  { room := "x.log", file := "x.log", pos := 0, pos0 := 0, phase := WPhase.cleanup }

/-- C10 witness: the cleanup half of the theorem applied in `c10State`. -/
theorem C10_cleanup_unconditional_witness :
    alookup 0 c10State.workers = some c10Wk ∧
    (alookup "x.log" (doWorkerStep c10State 0).tailThreads = none ∧
      (doWorkerStep c10State 0).trace = c10State.trace) :=
  ⟨by decide, (C10_cleanup_unconditional c10State 0 c10Wk (by decide)).1 rfl⟩

/-- C2 (amended): a leave request removes the connection from the room and
unconditionally sets the `stop` flag on the topic's current registry
entry — the code keeps no subscriber count, so the flag is set no matter
how many other connections remain subscribed. -/
theorem C2_leave_sets_stop_unconditionally (s : Sys) (conn : Nat) (f : String)
    (hf : f ≠ "") (eid : Nat) (ent : Entry)
    (ht : alookup f s.tailThreads = some eid)
    (he : alookup eid s.heap = some ent) :
    alookup eid (doLeave s conn f).heap = some { ent with stop := true } ∧
    roomMembers (doLeave s conn f) f
      = (roomMembers s f).filter (fun m => m ≠ conn) := by
  simp only [doLeave, if_neg hf, ht, he]
  refine ⟨alookup_aupdate_self _ _ _, ?_⟩
  simp [roomMembers, alookup_aupdate_self]

/-- A state with two subscribers of one topic and a live current entry. -/
def c2State : Sys :=
  run (initSys [("/var/log/x.log", [])])
    [Act.join 1 "x.log", Act.join 2 "x.log"]

/-- C2 witness: in `c2State` (subscribers 1 and 2, current entry id 1),
conn 1's leave sets the current entry's stop flag although conn 2 is still
subscribed. -/
theorem C2_leave_sets_stop_unconditionally_witness :
    alookup 1 (doLeave c2State 1 "x.log").heap
      = some { stop := true, file := "x.log", worker := 1 } ∧
    roomMembers (doLeave c2State 1 "x.log") "x.log"
      = (roomMembers c2State "x.log").filter (fun m => m ≠ 1) :=
  C2_leave_sets_stop_unconditionally c2State 1 "x.log" (by decide) 1
    { stop := false, file := "x.log", worker := 1 } (by decide) (by decide)

/-- A full run refuting C2 as stated: connections 1 and 2 join
`x.log`; 1 leaves; the workers observe the stop flag and terminate; then
`"b\n"` is appended and the worker steps run again. -/
def c2Run : Sys :=
  run (initSys [("/var/log/x.log", [])])
    [Act.join 1 "x.log", Act.step 0, Act.join 2 "x.log", Act.step 1,
     Act.leave 1 "x.log", Act.step 0, Act.step 1,
     Act.append "/var/log/x.log" ['b', '\n'], Act.step 0, Act.step 1]

/-- C2 counterexample: with connection 2 still subscribed, connection 1's
leave stops the tail: every worker finishes, the registry holds no entry,
and the appended line `"b\n"` is never emitted to anyone — the remaining
connection does not continue to receive subsequent live lines. -/
theorem C2_remaining_subscriber_starved :
    roomMembers c2Run "x.log" = [2] ∧
    contentAt c2Run "/var/log/x.log" = ['b', '\n'] ∧
    (c2Run.trace.filter fun e => decide (e.kind = EvKind.logLine)) = [] ∧
    (alookup 0 c2Run.workers).map Wk.phase = some WPhase.finished ∧
    (alookup 1 c2Run.workers).map Wk.phase = some WPhase.finished ∧
    alookup "x.log" c2Run.tailThreads = none := by
  decide

/-- C8 (amended): the disconnect handler's body is `pass`: apart from the
transport layer dropping the connection from room membership, nothing
happens — registry heap, `tail_threads`, workers, trace and files are all
untouched, so no release logic runs for the topic the connection belonged
to. -/
theorem C8_disconnect_is_noop (s : Sys) (conn : Nat) :
    (doDisconnect s conn).heap = s.heap ∧
    (doDisconnect s conn).tailThreads = s.tailThreads ∧
    (doDisconnect s conn).workers = s.workers ∧
    (doDisconnect s conn).trace = s.trace ∧
    (doDisconnect s conn).files = s.files :=
  ⟨rfl, rfl, rfl, rfl, rfl⟩

/-- A run refuting C8 as stated: connection 1 joins `x.log` (its only
topic), disconnects, and then a line is appended. -/
def c8Run : Sys :=
  run (initSys [("/var/log/x.log", [])])
    [Act.join 1 "x.log", Act.step 0, Act.disconnect 1,
     Act.append "/var/log/x.log" ['a', '\n'], Act.step 0]

/-- C8 counterexample: after the last subscriber disconnects, the entry's
stop flag is still unset and the worker is still looping, emitting the
appended line to an empty room — disconnect did not run the release logic
that an explicit leave would have run. -/
theorem C8_worker_survives_disconnect :
    roomMembers c8Run "x.log" = [] ∧
    (alookup 0 c8Run.heap).map Entry.stop = some false ∧
    (alookup 0 c8Run.workers).map Wk.phase = some WPhase.loop ∧
    ((c8Run.trace.filter fun e => decide (e.kind = EvKind.logLine)).map
        fun e => (e.emitter, e.line, e.recipients))
      = [(some 0, ['a', '\n'], ([] : List Nat))] := by
  decide

/-- C9: the join handler validates nothing: for every non-empty filename
it joins a room named by that string, installs a registry entry, and
spawns a worker for exactly that filename; and since `os.path.join`
discards `LOG_DIR` for an absolute second component, the filename
`"/etc/passwd"` makes the snapshot and the worker read `"/etc/passwd"`,
which does not lie under `LOG_DIR`. -/
theorem C9_no_validation_path_escape (s : Sys) (conn : Nat) (f : String)
    (hf : f ≠ "") :
    alookup s.nextWorker (doJoin s conn f).workers
      = some { room := f, file := f, pos := 0, pos0 := 0, phase := WPhase.start } ∧
    alookup f (doJoin s conn f).tailThreads = some s.nextEntry ∧
    conn ∈ roomMembers (doJoin s conn f) f ∧
    wpath { room := f, file := f, pos := 0, pos0 := 0, phase := WPhase.start }
      = pyPathJoin LOG_DIR f ∧
    pyPathJoin LOG_DIR "/etc/passwd" = "/etc/passwd" ∧
    "/etc/passwd".data.take LOG_DIR.data.length ≠ LOG_DIR.data := by
  refine ⟨?_, ?_, ?_, rfl, by decide, by decide⟩
  · simp only [doJoin, if_neg hf]
    exact alookup_aupdate_self _ _ _
  · simp only [doJoin, if_neg hf]
    exact alookup_aupdate_self _ _ _
  · simp only [doJoin, if_neg hf, roomMembers, alookup_aupdate_self, Option.getD_some]
    unfold joinMembers
    by_cases hm : conn ∈ roomMembers s f
    · simp only [if_pos hm]
      exact hm
    · simp only [if_neg hm]
      simp

/-- C9 witness: the theorem applied to the absolute filename
`"/etc/passwd"` in the initial state. -/
theorem C9_no_validation_path_escape_witness :
    alookup 0 (doJoin (initSys []) 3 "/etc/passwd").workers
      = some { room := "/etc/passwd", file := "/etc/passwd", pos := 0, pos0 := 0,
               phase := WPhase.start } ∧
    alookup "/etc/passwd" (doJoin (initSys []) 3 "/etc/passwd").tailThreads = some 0 ∧
    3 ∈ roomMembers (doJoin (initSys []) 3 "/etc/passwd") "/etc/passwd" ∧
    wpath { room := "/etc/passwd", file := "/etc/passwd", pos := 0, pos0 := 0,
            phase := WPhase.start }
      = pyPathJoin LOG_DIR "/etc/passwd" ∧
    pyPathJoin LOG_DIR "/etc/passwd" = "/etc/passwd" ∧
    "/etc/passwd".data.take LOG_DIR.data.length ≠ LOG_DIR.data :=
  C9_no_validation_path_escape (initSys []) 3 "/etc/passwd" (by decide)

/-!
## C1: two joins in quick succession leave two live emitting workers
-/

/-- The fast-reconnect schedule: connection 1 joins `x.log` twice in quick
succession (worker 0 then worker 1, each reaching its loop), `"a\n"` is
appended, and each worker runs one loop iteration. -/
def c1Run : Sys :=
  run (initSys [("/var/log/x.log", [])])
    [Act.join 1 "x.log", Act.step 0, Act.join 1 "x.log", Act.step 1,
     Act.append "/var/log/x.log" ['a', '\n'], Act.step 0, Act.step 1]

/-- C1: after a fast reconnect, the old worker's loop-top check reads the
*replacement's* registry entry (`tail_threads.get(room)`), whose stop flag
is false — `old["stop"] = True` mutated a dictionary that is no longer in
the map — so both generations survive the check and the subscriber
receives the appended line twice, once from each worker; both workers are
still in their loops and the room's current entry is live, violating the
at-most-one-non-stopped-worker invariant. -/
theorem C1_two_generations_emit :
    ((c1Run.trace.filter fun e => decide (e.kind = EvKind.logLine)).map
        fun e => (e.emitter, e.line, e.recipients))
      = [(some 0, ['a', '\n'], [1]), (some 1, ['a', '\n'], [1])] ∧
    (alookup 0 c1Run.workers).map Wk.phase = some WPhase.loop ∧
    (alookup 1 c1Run.workers).map Wk.phase = some WPhase.loop ∧
    entryLive c1Run "x.log" = true := by
  decide

/-!
## C6: the snapshot is emitted to the whole room, not only to the joiner
-/

/-- C6 (amended): on a join for a readable file, the `joined` ack goes only
to the joining connection, but every snapshot line is emitted to the
topic's room, whose membership after the join includes the joiner *and*
every previously subscribed connection. -/
theorem C6_snapshot_broadcast_to_room (s : Sys) (conn : Nat) (f : String)
    (hf : f ≠ "") (c : List Char)
    (hc : alookup (pyPathJoin LOG_DIR f) s.files = some c) :
    (doJoin s conn f).trace
      = s.trace
        ++ [{ kind := EvKind.joinedAck, room := f, recipients := [conn],
              file := f, line := [], emitter := none }]
        ++ (sendLastLinesResult c 200).map (fun l =>
            { kind := EvKind.logLine, room := f,
              recipients := roomMembers (doJoin s conn f) f,
              file := f, line := l ++ ['\n'], emitter := none }) ∧
    conn ∈ roomMembers (doJoin s conn f) f ∧
    ∀ m ∈ roomMembers s f, m ∈ roomMembers (doJoin s conn f) f := by
  have hrooms : roomMembers (doJoin s conn f) f
      = (if conn ∈ roomMembers s f then roomMembers s f
         else roomMembers s f ++ [conn]) := by
    simp only [doJoin, if_neg hf]
    simp [roomMembers, joinMembers, alookup_aupdate_self]
  refine ⟨?_, ?_, ?_⟩
  · rw [hrooms]
    simp only [doJoin, if_neg hf, joinEvents, snapshotEvents, hc, joinMembers,
      roomMembers]
    simp
  · rw [hrooms]
    by_cases hm : conn ∈ roomMembers s f
    · simp [hm]
    · simp [hm]
  · intro m hm
    rw [hrooms]
    by_cases hc2 : conn ∈ roomMembers s f
    · simp [hc2, hm]
    · simp [hc2]
      exact Or.inl hm

/-- A state with connection 1 already subscribed to `x.log`. -/
def c6State : Sys :=
  run (initSys [("/var/log/x.log", ['a', '\n'])]) [Act.join 1 "x.log"]

/-- C6 witness: the theorem applied to connection 2 joining `x.log` in
`c6State`, where connection 1 is already subscribed. -/
theorem C6_snapshot_broadcast_to_room_witness :
    (doJoin c6State 2 "x.log").trace
      = c6State.trace
        ++ [{ kind := EvKind.joinedAck, room := "x.log", recipients := [2],
              file := "x.log", line := [], emitter := none }]
        ++ (sendLastLinesResult ['a', '\n'] 200).map (fun l =>
            { kind := EvKind.logLine, room := "x.log",
              recipients := roomMembers (doJoin c6State 2 "x.log") "x.log",
              file := "x.log", line := l ++ ['\n'], emitter := none }) ∧
    2 ∈ roomMembers (doJoin c6State 2 "x.log") "x.log" ∧
    ∀ m ∈ roomMembers c6State "x.log",
      m ∈ roomMembers (doJoin c6State 2 "x.log") "x.log" :=
  C6_snapshot_broadcast_to_room c6State 2 "x.log" (by decide) ['a', '\n'] (by decide)

/-- The two-join run refuting C6 as stated: connection 1 joins, then
connection 2 joins the same topic. -/
def c6Run : Sys :=
  run (initSys [("/var/log/x.log", ['a', '\n'])])
    [Act.join 1 "x.log", Act.join 2 "x.log"]

/-- C6 counterexample: the snapshot triggered by connection 2's join is
delivered to recipients `[1, 2]` — the already-subscribed connection 1
receives a duplicate snapshot line caused by another connection's join. -/
theorem C6_existing_subscriber_gets_snapshot :
    ((c6Run.trace.filter fun e => decide (e.kind = EvKind.logLine)).map
        fun e => (e.recipients, e.line))
      = [([1], ['a', '\n']), ([1, 2], ['a', '\n'])] := by
  decide

/-!
## C3: joining a missing file

`send_last_lines` emits one `log_error`, and the worker that `on_join`
nevertheless spawns emits a second one when its `open` fails; after that
no worker for the topic is ever in its loop, so no `log_line` for the
topic is ever emitted.
-/

/-- Recognizer for a `log_line` event addressed to room `r`. -/
def isLineFor (r : String) (e : Event) : Bool :=
  decide (e.kind = EvKind.logLine ∧ e.room = r)

/-- No worker of room `r` can ever emit a line: every worker bound to `r`
is either still at its `open` with an unreadable path, or already in
cleanup, or finished. -/
def NoLiveWorker (s : Sys) (r : String) : Prop :=
  ∀ wid w, alookup wid s.workers = some w → w.room = r →
    (w.phase = WPhase.start ∧ alookup (wpath w) s.files = none) ∨
    w.phase = WPhase.cleanup ∨ w.phase = WPhase.finished

/-- Schedules consisting only of worker steps and file appends (no
further join/leave/disconnect activity on any topic). -/
def tailOnly : Act → Prop
  | Act.step _ => True
  | Act.append _ _ => True
  | _ => False

theorem filter_append_single (tr : List Event) (e : Event) (p : Event → Bool)
    (hp : p e = false) : (tr ++ [e]).filter p = tr.filter p := by
  simp [List.filter_append, hp]

theorem noLive_room_ne_of_loop (s : Sys) (r : String) (h : NoLiveWorker s r)
    (wid : Nat) (w : Wk) (hw : alookup wid s.workers = some w)
    (hph : w.phase = WPhase.loop) : w.room ≠ r := by
  intro hr
  have hd := h wid w hw hr
  rw [hph] at hd
  rcases hd with ⟨hst, -⟩ | hcl | hfin
  · exact WPhase.noConfusion hst
  · exact WPhase.noConfusion hcl
  · exact WPhase.noConfusion hfin

theorem noLive_room_ne_of_start_readable (s : Sys) (r : String)
    (h : NoLiveWorker s r) (wid : Nat) (w : Wk) (c : List Char)
    (hw : alookup wid s.workers = some w) (hph : w.phase = WPhase.start)
    (hfl : alookup (wpath w) s.files = some c) : w.room ≠ r := by
  intro hr
  have hd := h wid w hw hr
  rw [hph, hfl] at hd
  rcases hd with ⟨-, hn⟩ | hcl | hfin
  · exact Option.noConfusion hn
  · exact WPhase.noConfusion hcl
  · exact WPhase.noConfusion hfin

theorem noLive_step (s : Sys) (r : String) (wid : Nat) (h : NoLiveWorker s r) :
    NoLiveWorker (doWorkerStep s wid) r ∧
    (doWorkerStep s wid).trace.filter (isLineFor r)
      = s.trace.filter (isLineFor r) := by
  cases hw : alookup wid s.workers with
  | none =>
    unfold doWorkerStep
    rw [hw]
    exact ⟨h, rfl⟩
  | some w =>
    cases hph : w.phase with
    | start =>
      cases hfl : alookup (wpath w) s.files with
      | none =>
        simp only [doWorkerStep, hw, hph, hfl]
        constructor
        · intro wid' w' hw' hr'
          by_cases hid : wid' = wid
          · subst hid
            rw [alookup_aupdate_self] at hw'
            injection hw' with hw'
            subst hw'
            exact Or.inr (Or.inl rfl)
          · rw [alookup_aupdate_ne _ _ _ _ hid] at hw'
            exact h wid' w' hw' hr'
        · exact filter_append_single _ _ _ (by simp [isLineFor])
      | some c =>
        have hrne := noLive_room_ne_of_start_readable s r h wid w c hw hph hfl
        simp only [doWorkerStep, hw, hph, hfl]
        constructor
        · intro wid' w' hw' hr'
          by_cases hid : wid' = wid
          · subst hid
            rw [alookup_aupdate_self] at hw'
            injection hw' with hw'
            subst hw'
            exact absurd hr' hrne
          · rw [alookup_aupdate_ne _ _ _ _ hid] at hw'
            exact h wid' w' hw' hr'
        · trivial
    | loop =>
      have hrne := noLive_room_ne_of_loop s r h wid w hw hph
      simp only [doWorkerStep, hw, hph]
      cases hl : entryLive s w.room with
      | false =>
        simp only [Bool.false_eq_true, if_false]
        constructor
        · intro wid' w' hw' hr'
          by_cases hid : wid' = wid
          · subst hid
            rw [alookup_aupdate_self] at hw'
            injection hw' with hw'
            subst hw'
            exact Or.inr (Or.inl rfl)
          · rw [alookup_aupdate_ne _ _ _ _ hid] at hw'
            exact h wid' w' hw' hr'
        · trivial
      | true =>
        simp only [if_true]
        cases hline : pyReadline (contentAt s (wpath w)) w.pos with
        | nil =>
          simp only [if_pos rfl]
          exact ⟨h, rfl⟩
        | cons ch rest =>
          rw [if_neg (by simp)]
          constructor
          · intro wid' w' hw' hr'
            by_cases hid : wid' = wid
            · subst hid
              rw [alookup_aupdate_self] at hw'
              injection hw' with hw'
              subst hw'
              exact absurd hr' hrne
            · rw [alookup_aupdate_ne _ _ _ _ hid] at hw'
              exact h wid' w' hw' hr'
          · exact filter_append_single _ _ _ (by simp [isLineFor, hrne])
    | cleanup =>
      simp only [doWorkerStep, hw, hph]
      constructor
      · intro wid' w' hw' hr'
        by_cases hid : wid' = wid
        · subst hid
          rw [alookup_aupdate_self] at hw'
          injection hw' with hw'
          subst hw'
          exact Or.inr (Or.inr rfl)
        · rw [alookup_aupdate_ne _ _ _ _ hid] at hw'
          exact h wid' w' hw' hr'
      · trivial
    | finished =>
      simp only [doWorkerStep, hw, hph]
      exact ⟨h, trivial⟩

theorem noLive_append (s : Sys) (r : String) (p : String) (x : List Char)
    (h : NoLiveWorker s r) :
    NoLiveWorker (doAppend s p x) r ∧ (doAppend s p x).trace = s.trace := by
  unfold doAppend
  cases hc : alookup p s.files with
  | none => exact ⟨h, rfl⟩
  | some c =>
    constructor
    · intro wid w hw hr
      rcases h wid w hw hr with ⟨hst, hn⟩ | hcl | hfin
      · refine Or.inl ⟨hst, ?_⟩
        by_cases hpq : wpath w = p
        · rw [hpq] at hn
          rw [hn] at hc
          exact Option.noConfusion hc
        · show alookup (wpath w) (aupdate p (c ++ x) s.files) = none
          rw [alookup_aupdate_ne _ _ _ _ hpq]
          exact hn
      · exact Or.inr (Or.inl hcl)
      · exact Or.inr (Or.inr hfin)
    · rfl

theorem noLive_run (r : String) (acts : List Act)
    (hacts : ∀ a ∈ acts, tailOnly a) :
    ∀ s : Sys, NoLiveWorker s r →
      NoLiveWorker (run s acts) r ∧
      (run s acts).trace.filter (isLineFor r) = s.trace.filter (isLineFor r) := by
  induction acts with
  | nil => exact fun s h => ⟨h, rfl⟩
  | cons a acts ih =>
    intro s h
    have ha : tailOnly a := hacts a (List.mem_cons_self a acts)
    have hrest : ∀ a' ∈ acts, tailOnly a' :=
      fun a' h' => hacts a' (List.mem_cons_of_mem a h')
    cases a with
    | step wid =>
      have h1 := noLive_step s r wid h
      have h2 := ih hrest (doWorkerStep s wid) h1.1
      refine ⟨h2.1, ?_⟩
      show (run (doWorkerStep s wid) acts).trace.filter (isLineFor r) = _
      rw [h2.2, h1.2]
    | append p x =>
      have h1 := noLive_append s r p x h
      have h2 := ih hrest (doAppend s p x) h1.1
      refine ⟨h2.1, ?_⟩
      show (run (doAppend s p x) acts).trace.filter (isLineFor r) = _
      rw [h2.2, h1.2]
    | join conn f => exact absurd ha (by simp [tailOnly])
    | leave conn f => exact absurd ha (by simp [tailOnly])
    | disconnect conn => exact absurd ha (by simp [tailOnly])

/-- C3 (amended): a join for a file that does not exist emits *two*
`log_error` events to the topic — one from `send_last_lines` when its
`open` fails, and a second from the spawned tail worker when *its* `open`
fails — and no `log_line` event for that topic ever follows (over any
continuation of worker steps and file appends, given that no worker of
the topic was live to begin with). -/
theorem C3_missing_file_two_errors (s : Sys) (conn : Nat) (f : String)
    (hf : f ≠ "")
    (hmiss : alookup (pyPathJoin LOG_DIR f) s.files = none)
    (hnl : NoLiveWorker s f) :
    (doJoin s conn f).trace
      = s.trace
        ++ [{ kind := EvKind.joinedAck, room := f, recipients := [conn],
              file := f, line := [], emitter := none },
            { kind := EvKind.logError, room := f,
              recipients := joinMembers s conn f,
              file := f, line := [], emitter := none }] ∧
    (doWorkerStep (doJoin s conn f) s.nextWorker).trace
      = (doJoin s conn f).trace
        ++ [{ kind := EvKind.logError, room := f,
              recipients := roomMembers (doJoin s conn f) f,
              file := f, line := [], emitter := some s.nextWorker }] ∧
    ∀ acts : List Act, (∀ a ∈ acts, tailOnly a) →
      (run (doWorkerStep (doJoin s conn f) s.nextWorker) acts).trace.filter
          (isLineFor f)
        = s.trace.filter (isLineFor f) := by
  have hworkers : (doJoin s conn f).workers
      = aupdate s.nextWorker
          { room := f, file := f, pos := 0, pos0 := 0, phase := WPhase.start }
          s.workers := by
    simp only [doJoin, if_neg hf]
  have hfiles : (doJoin s conn f).files = s.files := by
    simp only [doJoin, if_neg hf]
  have hw1 : alookup s.nextWorker (doJoin s conn f).workers
      = some { room := f, file := f, pos := 0, pos0 := 0, phase := WPhase.start } := by
    rw [hworkers]
    exact alookup_aupdate_self _ _ _
  have hm1 : alookup
      (wpath { room := f, file := f, pos := 0, pos0 := 0, phase := WPhase.start })
      (doJoin s conn f).files = none := by
    rw [hfiles]
    exact hmiss
  have h1 : (doJoin s conn f).trace
      = s.trace
        ++ [{ kind := EvKind.joinedAck, room := f, recipients := [conn],
              file := f, line := [], emitter := none },
            { kind := EvKind.logError, room := f,
              recipients := joinMembers s conn f,
              file := f, line := [], emitter := none }] := by
    simp only [doJoin, if_neg hf, joinEvents, snapshotEvents, hmiss]
  have h2 : (doWorkerStep (doJoin s conn f) s.nextWorker).trace
      = (doJoin s conn f).trace
        ++ [{ kind := EvKind.logError, room := f,
              recipients := roomMembers (doJoin s conn f) f,
              file := f, line := [], emitter := some s.nextWorker }] := by
    simp only [doWorkerStep, hw1, hm1]
  refine ⟨h1, h2, ?_⟩
  have hnl1 : NoLiveWorker (doJoin s conn f) f := by
    intro wid w hw hr
    rw [hworkers] at hw
    by_cases hid : wid = s.nextWorker
    · subst hid
      rw [alookup_aupdate_self] at hw
      injection hw with hw
      subst hw
      exact Or.inl ⟨rfl, hm1⟩
    · rw [alookup_aupdate_ne _ _ _ _ hid] at hw
      rcases hnl wid w hw hr with ⟨hp, hn⟩ | hp | hp
      · refine Or.inl ⟨hp, ?_⟩
        rw [hfiles]
        exact hn
      · exact Or.inr (Or.inl hp)
      · exact Or.inr (Or.inr hp)
  have hnl2 : NoLiveWorker (doWorkerStep (doJoin s conn f) s.nextWorker) f :=
    (noLive_step (doJoin s conn f) f s.nextWorker hnl1).1
  intro acts hacts
  have h3 := (noLive_run f acts hacts _ hnl2).2
  rw [h3, h2, h1, List.filter_append, List.filter_append]
  simp [isLineFor]

/-- C3 witness: joining the unknown file `"nope.log"` from the initial
state yields exactly the ack and two error events, and a continuation of
worker steps and appends produces no `log_line` for the topic. -/
theorem C3_missing_file_two_errors_witness :
    (doWorkerStep (doJoin (initSys []) 1 "nope.log") 0).trace
      = [{ kind := EvKind.joinedAck, room := "nope.log", recipients := [1],
           file := "nope.log", line := [], emitter := none },
         { kind := EvKind.logError, room := "nope.log", recipients := [1],
           file := "nope.log", line := [], emitter := none },
         { kind := EvKind.logError, room := "nope.log", recipients := [1],
           file := "nope.log", line := [], emitter := some 0 }] ∧
    (run (doWorkerStep (doJoin (initSys []) 1 "nope.log") 0)
        [Act.step 0, Act.append "/var/log/nope.log" ['a', '\n'],
         Act.step 0]).trace.filter (isLineFor "nope.log")
      = [] := by
  have h := C3_missing_file_two_errors (initSys []) 1 "nope.log" (by decide)
    (by decide) (fun wid w hw => by simp [initSys, alookup] at hw)
  constructor
  · have h2 := h.2.1
    rw [h.1] at h2
    exact h2.trans (by decide)
  · have h3 := h.2.2 [Act.step 0, Act.append "/var/log/nope.log" ['a', '\n'],
      Act.step 0] (by intro a ha; fin_cases ha <;> trivial)
    exact h3.trans (by decide)

/-!
## C4: what a tail worker emits

A worker's `log_line` output, concatenated, is exactly the contiguous
fileSlice of its file from its initial end-of-file offset to its current read
cursor: every byte is emitted exactly once and in file order.  (The
partial-line counterexample below shows the fileSlice may end in the middle
of a line: `readline` at end-of-file returns a partial line instead of
buffering it.)
-/

/-- Recognizer for a `log_line` event emitted by worker `wid`. -/
def isLineOf (wid : Nat) (e : Event) : Bool :=
  decide (e.kind = EvKind.logLine ∧ e.emitter = some wid)

/-- The concatenation, in trace order, of all line payloads worker `wid`
has emitted. -/
def emittedBy (tr : List Event) (wid : Nat) : List Char :=
  ((tr.filter (isLineOf wid)).map Event.line).flatten

/-- The contiguous fileSlice of a file from offset `a` (inclusive) to offset
`b` (exclusive). -/
def fileSlice (c : List Char) (a b : Nat) : List Char :=
  (c.drop a).take (b - a)

/-- The per-worker emission invariant: a worker still at its `open` has
emitted nothing; afterwards its output is exactly the fileSlice of its file
between its initial offset and its cursor, and the cursor never runs past
end-of-file. -/
def WorkerOK (s : Sys) (wid : Nat) (w : Wk) : Prop :=
  wid < s.nextWorker ∧
  (w.phase = WPhase.start → w.pos = 0 ∧ w.pos0 = 0 ∧ emittedBy s.trace wid = []) ∧
  (w.phase ≠ WPhase.start →
    w.pos0 ≤ w.pos ∧ w.pos ≤ (contentAt s (wpath w)).length ∧
    emittedBy s.trace wid = fileSlice (contentAt s (wpath w)) w.pos0 w.pos)

/-- The system invariant: every registered worker satisfies `WorkerOK`,
and every event in the trace was emitted by an already-allocated worker
id (or by a handler). -/
def SysInv (s : Sys) : Prop :=
  (∀ wid w, alookup wid s.workers = some w → WorkerOK s wid w) ∧
  (∀ e ∈ s.trace, ∀ i, e.emitter = some i → i < s.nextWorker)

theorem emittedBy_append (t1 t2 : List Event) (wid : Nat) :
    emittedBy (t1 ++ t2) wid = emittedBy t1 wid ++ emittedBy t2 wid := by
  simp [emittedBy, List.filter_append]

theorem emittedBy_eq_nil (tr : List Event) (wid : Nat)
    (h : ∀ e ∈ tr, isLineOf wid e = false) : emittedBy tr wid = [] := by
  have hf : tr.filter (isLineOf wid) = [] :=
    List.filter_eq_nil_iff.mpr (by intro e he; simp [h e he])
  simp [emittedBy, hf]

theorem emittedBy_single_true (e : Event) (wid : Nat)
    (h : isLineOf wid e = true) : emittedBy [e] wid = e.line := by
  simp [emittedBy, List.filter, h]

theorem isLineOf_false_of_kind (e : Event) (wid : Nat)
    (h : e.kind ≠ EvKind.logLine) : isLineOf wid e = false := by
  simp [isLineOf, h]

theorem isLineOf_false_of_none (e : Event) (wid : Nat)
    (h : e.emitter = none) : isLineOf wid e = false := by
  simp [isLineOf, h]

theorem isLineOf_false_of_ne (e : Event) (wid wid' : Nat)
    (he : e.emitter = some wid) (hne : wid ≠ wid') : isLineOf wid' e = false := by
  simp only [isLineOf, decide_eq_false_iff_not]
  rintro ⟨-, hem⟩
  rw [he] at hem
  exact hne (Option.some.inj hem)

theorem fileSlice_refl (c : List Char) (a : Nat) : fileSlice c a a = [] := by
  simp [fileSlice]

theorem fileSlice_append_of_le (c x : List Char) (a b : Nat) (hb : b ≤ c.length) :
    fileSlice (c ++ x) a b = fileSlice c a b := by
  unfold fileSlice
  by_cases ha : a ≤ c.length
  · rw [List.drop_append_of_le_length ha, List.take_append_of_le_length]
    simp only [List.length_drop]
    omega
  · have hba : b - a = 0 := by omega
    simp [hba]

theorem fileSlice_add (c : List Char) (a b b2 : Nat) (hab : a ≤ b) (hbb : b ≤ b2) :
    fileSlice c a b ++ fileSlice c b b2 = fileSlice c a b2 := by
  unfold fileSlice
  have hd : c.drop b = (c.drop a).drop (b - a) := by
    rw [List.drop_drop]
    congr 1
    omega
  rw [hd]
  have h2 : b2 - a = (b - a) + (b2 - b) := by omega
  rw [h2, List.take_add]

theorem takeline_eq_take (l : List Char) :
    takeline l = l.take (takeline l).length := by
  induction l with
  | nil => rfl
  | cons c s ih =>
    by_cases hc : c = '\n'
    · simp [takeline, hc]
    · simp only [takeline, if_neg hc, List.length_cons, List.take_succ_cons]
      exact congrArg (List.cons c) ih

theorem takeline_length_le (l : List Char) : (takeline l).length ≤ l.length := by
  induction l with
  | nil => simp [takeline]
  | cons c s ih =>
    by_cases hc : c = '\n'
    · simp [takeline, hc]
    · simp only [takeline, if_neg hc, List.length_cons]
      exact Nat.succ_le_succ ih

theorem pyReadline_eq_slice (c : List Char) (pos : Nat) :
    pyReadline c pos = fileSlice c pos (pos + (pyReadline c pos).length) := by
  unfold pyReadline fileSlice
  have h : pos + (takeline (c.drop pos)).length - pos
      = (takeline (c.drop pos)).length := by omega
  rw [h]
  exact takeline_eq_take (c.drop pos)

theorem pyReadline_length_le (c : List Char) (pos : Nat) (h : pos ≤ c.length) :
    pos + (pyReadline c pos).length ≤ c.length := by
  have h2 := takeline_length_le (c.drop pos)
  simp only [List.length_drop] at h2
  unfold pyReadline
  omega

/-- Transport of `WorkerOK` to a state with the same files, possibly more
trace events (none of them lines of this worker) and a possibly larger
worker-id allocator. -/
theorem workerOK_extend (s s' : Sys) (wid : Nat) (w : Wk)
    (hnw : s.nextWorker ≤ s'.nextWorker) (hfl : s'.files = s.files)
    (evs : List Event) (htr : s'.trace = s.trace ++ evs)
    (hevs : ∀ e ∈ evs, isLineOf wid e = false)
    (h : WorkerOK s wid w) : WorkerOK s' wid w := by
  unfold WorkerOK contentAt at h ⊢
  rw [hfl, htr, emittedBy_append, emittedBy_eq_nil evs wid hevs, List.append_nil]
  exact ⟨lt_of_lt_of_le h.1 hnw, h.2⟩

theorem inv_initSys (fs : List (String × List Char)) : SysInv (initSys fs) := by
  constructor
  · intro wid w hw
    simp [initSys, alookup] at hw
  · intro e he
    simp [initSys] at he

theorem workerOK_congr (s s' : Sys) (wid : Nat) (w : Wk)
    (hnw : s'.nextWorker = s.nextWorker) (htr : s'.trace = s.trace)
    (hfl : s'.files = s.files) (h : WorkerOK s wid w) : WorkerOK s' wid w :=
  workerOK_extend s s' wid w (le_of_eq hnw.symm) hfl []
    (by rw [htr, List.append_nil]) (by intro e he; cases he) h

theorem sysInv_congr (s s' : Sys) (hw : s'.workers = s.workers)
    (hnw : s'.nextWorker = s.nextWorker) (htr : s'.trace = s.trace)
    (hfl : s'.files = s.files) (h : SysInv s) : SysInv s' := by
  constructor
  · intro wid w hlw
    rw [hw] at hlw
    exact workerOK_congr s s' wid w hnw htr hfl (h.1 wid w hlw)
  · intro e he i hei
    rw [htr] at he
    rw [hnw]
    exact h.2 e he i hei

theorem doLeave_frame (s : Sys) (conn : Nat) (f : String) :
    (doLeave s conn f).workers = s.workers ∧
    (doLeave s conn f).nextWorker = s.nextWorker ∧
    (doLeave s conn f).trace = s.trace ∧
    (doLeave s conn f).files = s.files := by
  by_cases hf : f = ""
  · unfold doLeave
    rw [if_pos hf]
    exact ⟨rfl, rfl, rfl, rfl⟩
  · simp only [doLeave, if_neg hf]
    split
    all_goals try split
    all_goals exact ⟨rfl, rfl, rfl, rfl⟩

theorem sysInv_doLeave (s : Sys) (conn : Nat) (f : String) (h : SysInv s) :
    SysInv (doLeave s conn f) := by
  obtain ⟨h1, h2, h3, h4⟩ := doLeave_frame s conn f
  exact sysInv_congr s _ h1 h2 h3 h4 h

theorem sysInv_doDisconnect (s : Sys) (conn : Nat) (h : SysInv s) :
    SysInv (doDisconnect s conn) :=
  sysInv_congr s _ rfl rfl rfl rfl h

theorem sysInv_doAppend (s : Sys) (p : String) (x : List Char) (h : SysInv s) :
    SysInv (doAppend s p x) := by
  unfold doAppend
  cases hc : alookup p s.files with
  | none => exact h
  | some c =>
    constructor
    · intro wid w hw
      have hok := h.1 wid w hw
      unfold WorkerOK at hok ⊢
      refine ⟨hok.1, hok.2.1, ?_⟩
      intro hph
      obtain ⟨g1, g2, g3⟩ := hok.2.2 hph
      by_cases hpq : wpath w = p
      · have hcc : contentAt s (wpath w) = c := by
          unfold contentAt
          rw [hpq, hc]
          rfl
        have hcc2 : contentAt { s with files := aupdate p (c ++ x) s.files }
            (wpath w) = c ++ x := by
          unfold contentAt
          rw [hpq]
          show (alookup p (aupdate p (c ++ x) s.files)).getD [] = c ++ x
          rw [alookup_aupdate_self]
          rfl
        rw [hcc2]
        rw [hcc] at g2 g3
        refine ⟨g1, ?_, ?_⟩
        · simp only [List.length_append]
          omega
        · rw [fileSlice_append_of_le c x _ _ g2]
          exact g3
      · have hcc2 : contentAt { s with files := aupdate p (c ++ x) s.files }
            (wpath w) = contentAt s (wpath w) := by
          unfold contentAt
          show (alookup (wpath w) (aupdate p (c ++ x) s.files)).getD [] = _
          rw [alookup_aupdate_ne _ _ _ _ hpq]
        rw [hcc2]
        exact ⟨g1, g2, g3⟩
    · intro e he i hei
      exact h.2 e he i hei

theorem sysInv_doJoin (s : Sys) (conn : Nat) (f : String) (h : SysInv s) :
    SysInv (doJoin s conn f) := by
  by_cases hf : f = ""
  · unfold doJoin
    rw [if_pos hf]
    exact h
  · have hevs : ∀ e ∈ joinEvents s conn f, e.emitter = none := by
      intro e he
      unfold joinEvents at he
      rcases List.mem_cons.mp he with rfl | he2
      · rfl
      · unfold snapshotEvents at he2
        cases hc : alookup (pyPathJoin LOG_DIR f) s.files with
        | some c =>
          rw [hc] at he2
          obtain ⟨l, -, rfl⟩ := List.mem_map.mp he2
          rfl
        | none =>
          rw [hc] at he2
          rw [List.mem_singleton] at he2
          subst he2
          rfl
    have htr : (doJoin s conn f).trace = s.trace ++ joinEvents s conn f := by
      simp only [doJoin, if_neg hf]
    have hwk : (doJoin s conn f).workers
        = aupdate s.nextWorker
            { room := f, file := f, pos := 0, pos0 := 0, phase := WPhase.start }
            s.workers := by
      simp only [doJoin, if_neg hf]
    have hnw : (doJoin s conn f).nextWorker = s.nextWorker + 1 := by
      simp only [doJoin, if_neg hf]
    have hfl : (doJoin s conn f).files = s.files := by
      simp only [doJoin, if_neg hf]
    constructor
    · intro wid w hw
      rw [hwk] at hw
      by_cases hid : wid = s.nextWorker
      · subst hid
        rw [alookup_aupdate_self] at hw
        injection hw with hw
        subst hw
        have he1 : emittedBy s.trace s.nextWorker = [] := by
          apply emittedBy_eq_nil
          intro e he
          cases hem : e.emitter with
          | none => exact isLineOf_false_of_none e _ hem
          | some i =>
            have hi := h.2 e he i hem
            exact isLineOf_false_of_ne e i _ hem (by omega)
        have he2 : emittedBy (joinEvents s conn f) s.nextWorker = [] := by
          apply emittedBy_eq_nil
          intro e he
          exact isLineOf_false_of_none e _ (hevs e he)
        unfold WorkerOK
        refine ⟨by rw [hnw]; omega, ?_, ?_⟩
        · intro _
          refine ⟨rfl, rfl, ?_⟩
          rw [htr, emittedBy_append, he1, he2]
          rfl
        · intro hst
          exact absurd rfl hst
      · rw [alookup_aupdate_ne _ _ _ _ hid] at hw
        exact workerOK_extend s (doJoin s conn f) wid w (by rw [hnw]; omega) hfl
          (joinEvents s conn f) htr
          (fun e he => isLineOf_false_of_none e _ (hevs e he)) (h.1 wid w hw)
    · intro e he i hei
      rw [htr] at he
      rw [hnw]
      rcases List.mem_append.mp he with he | he
      · have := h.2 e he i hei
        omega
      · rw [hevs e he] at hei
        exact Option.noConfusion hei

/-- Master lemma for a worker step that emits `evs` (all attributed to
worker `wid`) and replaces that worker's state: the system invariant is
preserved provided the stepped worker itself is shown to satisfy its
invariant in the new state. -/
theorem sysInv_step_update (s : Sys) (wid : Nat) (w w' : Wk)
    (hw : alookup wid s.workers = some w)
    (evs : List Event)
    (hevs : ∀ e ∈ evs, e.emitter = some wid)
    (h : SysInv s)
    (hok' : WorkerOK { s with
        trace := s.trace ++ evs
        workers := aupdate wid w' s.workers } wid w') :
    SysInv { s with
        trace := s.trace ++ evs
        workers := aupdate wid w' s.workers } := by
  constructor
  · intro wid' w2 hw2
    have hw3 : alookup wid' (aupdate wid w' s.workers) = some w2 := hw2
    by_cases hid : wid' = wid
    · subst hid
      rw [alookup_aupdate_self] at hw3
      injection hw3 with hw3
      subst hw3
      exact hok'
    · rw [alookup_aupdate_ne _ _ _ _ hid] at hw3
      exact workerOK_extend s _ wid' w2 le_rfl rfl evs rfl
        (fun e he =>
          isLineOf_false_of_ne e wid wid' (hevs e he) (fun hh => hid hh.symm))
        (h.1 wid' w2 hw3)
  · intro e he i hei
    rcases List.mem_append.mp he with he | he
    · exact h.2 e he i hei
    · rw [hevs e he] at hei
      injection hei with hei
      subst hei
      exact (h.1 wid w hw).1

/-- Master lemma for a worker step that emits nothing: only the worker's
own state (and possibly `tail_threads`) changes. -/
theorem sysInv_step_update_silent (s : Sys) (wid : Nat) (w w' : Wk)
    (tth : List (String × Nat))
    (hw : alookup wid s.workers = some w)
    (h : SysInv s)
    (hok' : WorkerOK s wid w') :
    SysInv { s with
        tailThreads := tth
        workers := aupdate wid w' s.workers } := by
  constructor
  · intro wid' w2 hw2
    have hw3 : alookup wid' (aupdate wid w' s.workers) = some w2 := hw2
    by_cases hid : wid' = wid
    · subst hid
      rw [alookup_aupdate_self] at hw3
      injection hw3 with hw3
      subst hw3
      exact workerOK_congr s _ _ w' rfl rfl rfl hok'
    · rw [alookup_aupdate_ne _ _ _ _ hid] at hw3
      exact workerOK_congr s _ wid' w2 rfl rfl rfl (h.1 wid' w2 hw3)
  · intro e he i hei
    exact h.2 e he i hei

theorem sysInv_doWorkerStep (s : Sys) (wid : Nat) (h : SysInv s) :
    SysInv (doWorkerStep s wid) := by
  cases hw : alookup wid s.workers with
  | none =>
    unfold doWorkerStep
    rw [hw]
    exact h
  | some w =>
    have hok := h.1 wid w hw
    cases hph : w.phase with
    | start =>
      obtain ⟨g0, g1, g2⟩ := hok.2.1 hph
      cases hfl : alookup (wpath w) s.files with
      | none =>
        have hcl : contentAt s (wpath w) = [] := by
          unfold contentAt
          rw [hfl]
          rfl
        simp only [doWorkerStep, hw, hph, hfl]
        apply sysInv_step_update s wid w _ hw _ (by intro e he; rw [List.mem_singleton] at he; subst he; rfl) h
        unfold WorkerOK
        refine ⟨hok.1, ?_, ?_⟩
        · intro hst
          exact WPhase.noConfusion hst
        · intro _
          refine ⟨?_, ?_, ?_⟩
          · show w.pos0 ≤ w.pos
            omega
          · show w.pos ≤ (contentAt s (wpath w)).length
            rw [hcl, g0]
            exact Nat.le_refl 0
          · show emittedBy (s.trace ++ _) wid = _
            rw [emittedBy_append, g2]
            rw [emittedBy_eq_nil _ wid (by
              intro e he
              rw [List.mem_singleton] at he
              subst he
              exact isLineOf_false_of_kind _ _ (by simp))]
            show ([] : List Char) = fileSlice (contentAt s (wpath w)) w.pos0 w.pos
            rw [hcl, g0, g1]
            rfl
      | some c =>
        have hcl : contentAt s (wpath w) = c := by
          unfold contentAt
          rw [hfl]
          rfl
        simp only [doWorkerStep, hw, hph, hfl]
        apply sysInv_step_update_silent s wid w _ s.tailThreads hw h
        unfold WorkerOK
        refine ⟨hok.1, ?_, ?_⟩
        · intro hst
          exact WPhase.noConfusion hst
        · intro _
          refine ⟨Nat.le_refl _, ?_, ?_⟩
          · show c.length ≤ (contentAt s (wpath w)).length
            rw [hcl]
          · show emittedBy s.trace wid = fileSlice (contentAt s (wpath w)) c.length c.length
            rw [g2, fileSlice_refl]
    | loop =>
      have hns : w.phase ≠ WPhase.start := by
        rw [hph]
        exact fun hst => WPhase.noConfusion hst
      obtain ⟨g1, g2, g3⟩ := hok.2.2 hns
      simp only [doWorkerStep, hw, hph]
      cases hl : entryLive s w.room with
      | false =>
        simp only [Bool.false_eq_true, if_false]
        apply sysInv_step_update_silent s wid w _ s.tailThreads hw h
        unfold WorkerOK
        refine ⟨hok.1, ?_, ?_⟩
        · intro hst
          exact WPhase.noConfusion hst
        · intro _
          exact ⟨g1, g2, g3⟩
      | true =>
        simp only [if_true]
        cases hline : pyReadline (contentAt s (wpath w)) w.pos with
        | nil =>
          rw [if_pos rfl]
          exact h
        | cons ch rest =>
          rw [if_neg (by simp)]
          rw [← hline]
          apply sysInv_step_update s wid w _ hw _ (by intro e he; rw [List.mem_singleton] at he; subst he; rfl) h
          unfold WorkerOK
          refine ⟨hok.1, ?_, ?_⟩
          · intro hst
            exact WPhase.noConfusion hst
          · intro _
            refine ⟨?_, ?_, ?_⟩
            · show w.pos0 ≤ w.pos + (pyReadline (contentAt s (wpath w)) w.pos).length
              omega
            · show w.pos + (pyReadline (contentAt s (wpath w)) w.pos).length
                ≤ (contentAt s (wpath w)).length
              exact pyReadline_length_le _ _ g2
            · show emittedBy (s.trace ++ _) wid
                = fileSlice (contentAt s (wpath w)) w.pos0
                    (w.pos + (pyReadline (contentAt s (wpath w)) w.pos).length)
              rw [emittedBy_append, g3]
              rw [emittedBy_single_true _ wid (by simp [isLineOf])]
              show fileSlice (contentAt s (wpath w)) w.pos0 w.pos
                  ++ pyReadline (contentAt s (wpath w)) w.pos = _
              conv_lhs => rw [pyReadline_eq_slice (contentAt s (wpath w)) w.pos]
              exact fileSlice_add (contentAt s (wpath w)) w.pos0 w.pos
                (w.pos + (pyReadline (contentAt s (wpath w)) w.pos).length) g1
                (Nat.le_add_right _ _)
    | cleanup =>
      have hns : w.phase ≠ WPhase.start := by
        rw [hph]
        exact fun hst => WPhase.noConfusion hst
      obtain ⟨g1, g2, g3⟩ := hok.2.2 hns
      simp only [doWorkerStep, hw, hph]
      apply sysInv_step_update_silent s wid w _ (aremove w.room s.tailThreads) hw h
      unfold WorkerOK
      refine ⟨hok.1, ?_, ?_⟩
      · intro hst
        exact WPhase.noConfusion hst
      · intro _
        exact ⟨g1, g2, g3⟩
    | finished =>
      simp only [doWorkerStep, hw, hph]
      exact h

theorem sysInv_doAction (s : Sys) (a : Act) (h : SysInv s) :
    SysInv (doAction s a) := by
  cases a with
  | join conn f => exact sysInv_doJoin s conn f h
  | leave conn f => exact sysInv_doLeave s conn f h
  | disconnect conn => exact sysInv_doDisconnect s conn h
  | step wid => exact sysInv_doWorkerStep s wid h
  | append p x => exact sysInv_doAppend s p x h

theorem sysInv_run (s : Sys) (acts : List Act) (h : SysInv s) :
    SysInv (run s acts) := by
  induction acts generalizing s with
  | nil => exact h
  | cons a acts ih => exact ih (doAction s a) (sysInv_doAction s a h)

/-- C4 (amended): on every schedule from process start, a tail worker's
emitted `log_line` output, concatenated in order, is exactly the
contiguous slice of its file from its initial end-of-file offset to its
current read cursor, and the cursor never passes end-of-file: every
appended byte the worker has consumed is emitted exactly once, in append
order.  (What fails of the original claim is only the delimiter clause:
the slice may end in the middle of a line, because `readline` returns a
partial line at end-of-file instead of buffering it — see the premature
partial-line counterexample.) -/
theorem C4_worker_output_is_file_slice (fs : List (String × List Char))
    (acts : List Act) (wid : Nat) (w : Wk)
    (hw : alookup wid (run (initSys fs) acts).workers = some w)
    (hph : w.phase ≠ WPhase.start) :
    emittedBy (run (initSys fs) acts).trace wid
      = fileSlice (contentAt (run (initSys fs) acts) (wpath w)) w.pos0 w.pos ∧
    w.pos0 ≤ w.pos ∧
    w.pos ≤ (contentAt (run (initSys fs) acts) (wpath w)).length := by
  have h := (sysInv_run (initSys fs) acts (inv_initSys fs)).1 wid w hw
  obtain ⟨g1, g2, g3⟩ := h.2.2 hph
  exact ⟨g3, g1, g2⟩

/-- The premature-emission schedule: a worker tails an empty `x.log`, the
two bytes `"ab"` are appended with no newline yet, and the worker polls
once. -/
def c4Run : Sys :=
  run (initSys [("/var/log/x.log", [])])
    [Act.join 1 "x.log", Act.step 0,
     Act.append "/var/log/x.log" ['a', 'b'], Act.step 0]

/-- The worker state after the premature-emission schedule. -/
def c4Wk : Wk :=
  { room := "x.log", file := "x.log", pos := 2, pos0 := 0, phase := WPhase.loop }

/-- C4 counterexample: the worker emits the event `"ab"` although no
newline was ever written to the file — `fh.readline()` at end-of-file
returns the partial line instead of buffering it, refuting the claim that
no line content is emitted before its trailing delimiter is written. -/
theorem C4_partial_line_emitted_early :
    ((c4Run.trace.filter fun e => decide (e.kind = EvKind.logLine)).map Event.line)
      = [['a', 'b']] ∧
    '\n' ∉ contentAt c4Run "/var/log/x.log" := by
  constructor
  · decide
  · decide

/-- C4 witness: the amended theorem applied to the premature-emission
schedule; the worker's concatenated output equals the file slice from
offset 0 to its cursor 2. -/
theorem C4_worker_output_is_file_slice_witness :
    alookup 0 c4Run.workers = some c4Wk ∧
    (emittedBy c4Run.trace 0
        = fileSlice (contentAt c4Run (wpath c4Wk)) c4Wk.pos0 c4Wk.pos ∧
      c4Wk.pos0 ≤ c4Wk.pos ∧
      c4Wk.pos ≤ (contentAt c4Run (wpath c4Wk)).length) :=
  ⟨by decide,
   C4_worker_output_is_file_slice [("/var/log/x.log", [])]
     [Act.join 1 "x.log", Act.step 0,
      Act.append "/var/log/x.log" ['a', 'b'], Act.step 0]
     0 c4Wk (by decide) (by decide)⟩

/-- The missing-file join run: connection 1 joins the unknown
`"nope.log"` and the spawned worker runs once. -/
def c3Run : Sys :=
  run (initSys []) [Act.join 1 "nope.log", Act.step 0]

/-- C3 counterexample (to "exactly one stream-error event"): joining a
missing file produces *two* `log_error` events for the topic — one from
the snapshot reader, one from the spawned worker — though indeed no
`log_line` events. -/
theorem C3_two_errors_not_one :
    (c3Run.trace.filter fun e => decide (e.kind = EvKind.logError)).length = 2 ∧
    (c3Run.trace.filter fun e => decide (e.kind = EvKind.logLine)) = [] := by
  constructor
  · decide
  · decide
